import Mathlib

/-!
# httpitis: blocking vs. multiplexed exchange, and the slow reader

A shallow embedding of

* `src/http1/multiplexing/main.go`: `handleHTTP1` (three pipelined requests
  answered strictly one after the other) and `handleHTTP2` (three stream
  requests answered by three concurrently running units of work);
* `src/attacks/slowloris.go`: `SlowReader.Read`.

Byte strings are lists of `Char`, one `Char` per byte (every literal of the
source is ASCII).  Time is a logical clock in milliseconds that only
`time.Sleep` advances.  Go's `int`/`int64` are integers with an explicit
wrap to 64 bits.
-/

namespace Httpitis

/-! ## Byte streams and `bufio.Reader.ReadString` -/

/-- One byte string: a request line, a header line, a whole client input. -/
abbrev Bytes := List Char

/-- Go's `bufio.Reader.ReadString(delim)` on the bytes still unread: the result
is the data up to and including the first `delim` together with what stays
unread.  When the input ends before a `delim` is seen, Go returns the data read
so far and an error; every caller in `main.go` discards that error
(`line, _ := ...`), so only the data is kept.  On an ended input the call
returns the empty string, again and again. -/
def readString (delim : Char) : Bytes → Bytes × Bytes
  | [] => ([], [])
  | c :: rest =>
    if c = delim then ([c], rest)
    else ((c :: (readString delim rest).1), (readString delim rest).2)

/-- The line `"\r\n"` that ends the headers of a request. -/
def blankLine : Bytes := ['\r', '\n']

/-! ## `handleHTTP1` (main.go, lines 13-44) -/

/-- One `conn.Write`: the clock offset (ms) at which it happens and the
payload. -/
structure Record where
  offset : Nat
  payload : String
deriving DecidableEq, Repr

/-- The server side of a connection: the client bytes not yet consumed, the
writes made so far (oldest first) and the logical clock in milliseconds. -/
structure Conn where
  unread : Bytes
  written : List Record
  clock : Nat
deriving DecidableEq, Repr

/-- Result of running a handler with a bounded number of loop iterations:
`returned` when the handler ran to its end, `spinning` when a loop was still
going round after the allowed number of iterations, with the writes made up to
then and the clock. -/
inductive Outcome where
  | returned (c : Conn)
  | spinning (written : List Record) (clock : Nat)
deriving DecidableEq, Repr

/-- The header loop of `handleHTTP1` (lines 23-28):
`for { line, _ := reader.ReadString('\n'); if line == "\r\n" { break } }`.
The loop has no other exit; `fuel` bounds the number of iterations that are
run, and `none` says the loop is still running after `fuel` iterations. -/
def readHeaders : Nat → Bytes → Option Bytes
  | 0, _ => none
  | fuel + 1, buf =>
    if (readString '\n' buf).1 = blankLine then some (readString '\n' buf).2
    else readHeaders fuel (readString '\n' buf).2

/-- The simulated wait of `handleHTTP1` before response `i` (lines 31-34):
`if i == 0 { time.Sleep(3 * time.Second) }`, in milliseconds. -/
def http1Sleep (i : Nat) : Nat := if i = 0 then 3000 else 0

/-- The response of `handleHTTP1` in iteration `i` (lines 36-39). -/
def http1Response (i : Nat) : String :=
  "HTTP/1.1 200 OK\r\n" ++ "Content-Length: 20\r\n" ++ "\r\n" ++
    "Response #" ++ toString (i + 1) ++ " content!"

/-- The loop `for i := 0; i < 3; i++ { ... }` of `handleHTTP1`, with `k`
iterations left and loop counter `i`: read the request line, read headers up
to the blank line, sleep, write the response. -/
def handleHTTP1Loop (fuel : Nat) : Nat → Nat → Conn → Outcome
  | 0, _, c => Outcome.returned c
  | k + 1, i, c =>
    match readHeaders fuel (readString '\n' c.unread).2 with
    | none => Outcome.spinning c.written c.clock
    | some rest =>
      handleHTTP1Loop fuel k (i + 1)
        { unread := rest
          written := c.written ++ [⟨c.clock + http1Sleep i, http1Response i⟩]
          clock := c.clock + http1Sleep i }

/-- The handler `handleHTTP1` on a connection whose client sends `input` and
then ends the stream. -/
def handleHTTP1 (fuel : Nat) (input : Bytes) : Outcome :=
  handleHTTP1Loop fuel 3 0 { unread := input, written := [], clock := 0 }

/-! ### Complete requests -/

/-- A line: bytes without a line feed, followed by one line feed. -/
def IsLine (l : Bytes) : Prop := ∃ body : Bytes, l = body ++ ['\n'] ∧ '\n' ∉ body

/-- A request as the client sends it: the request line and the header lines;
the blank line that ends it is added by `Request.encode`. -/
structure Request where
  requestLine : Bytes
  headers : List Bytes

/-- A complete request: the request line is a line, every header is a line
and none of them is the blank line. -/
def Request.Complete (r : Request) : Prop :=
  IsLine r.requestLine ∧ ∀ h ∈ r.headers, IsLine h ∧ h ≠ blankLine

/-- The bytes of a request: request line, headers, blank line. -/
def Request.encode (r : Request) : Bytes :=
  r.requestLine ++ r.headers.flatten ++ blankLine

/-- The `n`-th of the pipelined requests that `testHTTP1Pipelining` sends
(lines 56-58): `"GET /resource<n> HTTP/1.1\r\nHost: localhost\r\n\r\n"`. -/
def pipelinedRequest (n : Nat) : Request :=
  { requestLine := ("GET /resource" ++ toString n ++ " HTTP/1.1\r").toList ++ ['\n']
    headers := ["Host: localhost\r".toList ++ ['\n']] }

/-- A client input that ends in the middle of the second request: the first
request of `testHTTP1Pipelining` whole, then the request line and the header
of the second one, without the blank line. -/
def truncatedInput : Bytes :=
  ("GET /resource1 HTTP/1.1\r\nHost: localhost\r\n\r\n" ++
    "GET /resource2 HTTP/1.1\r\nHost: localhost\r\n").toList

/-- Sum of the waits of streams `0..i` of the blocking handler. -/
def http1WaitUpTo (i : Nat) : Nat := ((List.range (i + 1)).map http1Sleep).sum

/-! ## `handleHTTP2` (main.go, lines 99-137) -/

/-- The loop of lines 105-109: `n` times `line, _ := reader.ReadString('\n')`,
the lines appended to `requests`. -/
def readRequests : Nat → Bytes → List Bytes
  | 0, _ => []
  | n + 1, buf => (readString '\n' buf).1 :: readRequests n (readString '\n' buf).2

/-- The simulated wait of the unit of work of stream `streamID` (lines
118-124), in milliseconds. -/
def http2Sleep (streamID : Nat) : Nat := if streamID = 0 then 3000 else 100

/-- The response of the unit of work of stream `streamID` (line 126). -/
def http2Response (streamID : Nat) : String :=
  "STREAM:" ++ toString streamID ++ " Response #" ++ toString (streamID + 1) ++ " ready!\n"

/-- One dispatched unit of work (`go func(streamID int, request string)`). -/
structure Work where
  streamID : Nat
  request : Bytes
  sleep : Nat
  response : String
deriving DecidableEq, Repr

/-- The units of work started by `for i, req := range requests { go ... }`. -/
def dispatch (input : Bytes) : List Work :=
  (readRequests 3 input).enum.map
    fun ir => ⟨ir.1, ir.2, http2Sleep ir.1, http2Response ir.1⟩

/-- The contents of the channel `responses` when the units of work deliver in
the order `order` (positions in the dispatch list).  The channel has room for
three, so no send waits for a receive. -/
def delivered (units : List Work) (order : List Nat) : List String :=
  order.filterMap fun k => (units.get? k).map Work.response

/-- The handler `handleHTTP2`: what it writes to the connection, oldest first,
when the units of work deliver in the order `order`.  The receive loop of lines
132-136 takes three values from the channel and writes each one. -/
def handleHTTP2 (input : Bytes) (order : List Nat) : List String :=
  (delivered (dispatch input) order).take 3

/-! ## `SlowReader` (slowloris.go, lines 13-43) -/

/-- Wrap an integer to Go's `int64` (also `int` on a 64-bit platform). -/
def wrap64 (x : Int) : Int := (x + 2 ^ 63) % 2 ^ 64 - 2 ^ 63

/-- The struct `SlowReader`; `delay` is a `time.Duration`, in nanoseconds. -/
structure SlowReader where
  dataSize : Int
  sent : Int
  chunkSize : Int
  delay : Int
deriving DecidableEq, Repr

/-- The three fields `Read` computes with are values of their 64-bit Go
types. -/
def SlowReader.InRange (s : SlowReader) : Prop :=
  (-(2 ^ 63) ≤ s.dataSize ∧ s.dataSize < 2 ^ 63) ∧
  (-(2 ^ 63) ≤ s.sent ∧ s.sent < 2 ^ 63) ∧
  (-(2 ^ 63) ≤ s.chunkSize ∧ s.chunkSize < 2 ^ 63)

/-- The error result of `Read`: only `io.EOF` occurs. -/
inductive ReadError where
  | EOF
deriving DecidableEq, Repr

/-- The loop `for i := 0; i < toSend && i < len(p); i++ { p[i] = 'A' }`, with
`k` the number of iterations `toSend` still allows. -/
def fillDummy : Nat → Bytes → Bytes
  | 0, p => p
  | _ + 1, [] => []
  | k + 1, _ :: p => 'A' :: fillDummy k p

/-- What one call of `Read` leaves behind: the reader, the buffer, the two
results `n` and `err`, and the time slept (ns). -/
structure ReadResult where
  reader : SlowReader
  buf : Bytes
  n : Int
  err : Option ReadError
  slept : Int
deriving DecidableEq, Repr

/-- The method `(s *SlowReader) Read(p []byte) (n int, err error)`. -/
def SlowReader.Read (s : SlowReader) (p : Bytes) : ReadResult :=
  if s.sent ≥ s.dataSize then
    { reader := s, buf := p, n := 0, err := some ReadError.EOF, slept := 0 }
  else
    let toSend : Int :=
      if s.chunkSize > wrap64 (s.dataSize - s.sent) then wrap64 (s.dataSize - s.sent)
      else s.chunkSize
    { reader := { s with sent := wrap64 (s.sent + toSend) }
      buf := fillDummy toSend.toNat p
      n := toSend
      err := none
      slept := s.delay }

/-- Successive calls of `Read`, one per buffer of `bufs`: the results of the
calls, in order. -/
def readMany (s : SlowReader) : List Bytes → List ReadResult
  | [] => []
  | p :: bufs => s.Read p :: readMany (s.Read p).reader bufs

/-- The reader built by `slowPostHTTP1` and `slowPostHTTP2`: one gigabyte
claimed, one byte per read, twenty seconds between reads. -/
def slowPostReader : SlowReader :=
  { dataSize := 1000000000, sent := 0, chunkSize := 1, delay := 20 * 1000000000 }

/-! ## Theorems: `handleHTTP1` -/

/-- Reading a line that is there: `ReadString` returns it and leaves the
rest. -/
theorem readString_line (l rest : Bytes) (h : IsLine l) :
    readString '\n' (l ++ rest) = (l, rest) := by
  obtain ⟨body, rfl, hb⟩ := h
  induction body with
  | nil => simp [readString]
  | cons c body ih =>
    have hc : c ≠ '\n' := fun e => hb (by simp [e])
    have hb2 : '\n' ∉ body := fun e => hb (by simp [e])
    have ih2 := ih hb2
    simp only [List.cons_append, List.append_assoc, List.nil_append] at ih2 ⊢
    simp [readString, hc, ih2]

theorem isLine_blankLine : IsLine blankLine :=
  ⟨['\r'], rfl, by decide⟩

/-- The header loop on an ended input never meets the blank line. -/
theorem readHeaders_nil (fuel : Nat) : readHeaders fuel [] = none := by
  induction fuel with
  | zero => rfl
  | succ n ih => simpa [readHeaders, readString, blankLine] using ih

/-- The header loop on header lines followed by the blank line: it stops right
after the blank line, given one iteration per line. -/
theorem readHeaders_complete (hs : List Bytes) (rest : Bytes) :
    ∀ fuel, (∀ h ∈ hs, IsLine h ∧ h ≠ blankLine) → hs.length < fuel →
      readHeaders fuel (hs.flatten ++ blankLine ++ rest) = some rest := by
  induction hs with
  | nil =>
    intro fuel _ hf
    obtain ⟨n, rfl⟩ : ∃ n, fuel = n + 1 := ⟨fuel - 1, by simp at hf; omega⟩
    have h := readString_line blankLine rest isLine_blankLine
    simp only [List.flatten_nil, List.nil_append]
    simp [readHeaders, h]
  | cons h hs ih =>
    intro fuel hall hf
    obtain ⟨n, rfl⟩ : ∃ n, fuel = n + 1 := ⟨fuel - 1, by simp at hf; omega⟩
    have hh := hall h (by simp)
    have hrs := readString_line h (hs.flatten ++ blankLine ++ rest) hh.1
    have ih2 := ih n (fun x hx => hall x (by simp [hx])) (by simp at hf; omega)
    have e : (h :: hs).flatten ++ blankLine ++ rest = h ++ (hs.flatten ++ blankLine ++ rest) := by
      simp [List.append_assoc]
    rw [e]
    simp only [readHeaders, hrs, hh.2, if_false]
    exact ih2

/-- One iteration of the loop of `handleHTTP1` on a complete request: the
request is consumed, the clock advances by the wait, the response is
written. -/
theorem handleHTTP1Loop_step (fuel k i : Nat) (r : Request) (rest : Bytes)
    (w : List Record) (t : Nat) (hr : r.Complete) (hf : r.headers.length < fuel) :
    handleHTTP1Loop fuel (k + 1) i ⟨r.encode ++ rest, w, t⟩ =
      handleHTTP1Loop fuel k (i + 1)
        ⟨rest, w ++ [⟨t + http1Sleep i, http1Response i⟩], t + http1Sleep i⟩ := by
  have e : r.encode ++ rest = r.requestLine ++ (r.headers.flatten ++ blankLine ++ rest) := by
    simp [Request.encode, List.append_assoc]
  have h1 := readString_line r.requestLine (r.headers.flatten ++ blankLine ++ rest) hr.1
  have h2 := readHeaders_complete r.headers rest fuel hr.2 hf
  simp only [handleHTTP1Loop, e, h1, h2]

/-- On three complete requests (and whatever follows them) `handleHTTP1`
returns; its writes and its clock are as listed. -/
theorem handleHTTP1_complete (r1 r2 r3 : Request) (tail : Bytes) (fuel : Nat)
    (h1 : r1.Complete) (h2 : r2.Complete) (h3 : r3.Complete)
    (hf : r1.headers.length < fuel ∧ r2.headers.length < fuel ∧ r3.headers.length < fuel) :
    handleHTTP1 fuel (r1.encode ++ r2.encode ++ r3.encode ++ tail) =
      Outcome.returned
        ⟨tail, [⟨3000, http1Response 0⟩, ⟨3000, http1Response 1⟩, ⟨3000, http1Response 2⟩],
          3000⟩ := by
  have e : r1.encode ++ r2.encode ++ r3.encode ++ tail
      = r1.encode ++ (r2.encode ++ (r3.encode ++ tail)) := by simp [List.append_assoc]
  rw [handleHTTP1, e, handleHTTP1Loop_step fuel 2 0 r1 _ _ _ h1 hf.1,
    handleHTTP1Loop_step fuel 1 1 r2 _ _ _ h2 hf.2.1,
    handleHTTP1Loop_step fuel 0 2 r3 _ _ _ h3 hf.2.2]
  simp [handleHTTP1Loop, http1Sleep]

/-- When the client's stream has ended where a request should start, the loop
of `handleHTTP1` never gets out of its header loop. -/
theorem handleHTTP1Loop_ended (fuel k i : Nat) (w : List Record) (t : Nat) :
    handleHTTP1Loop fuel (k + 1) i ⟨[], w, t⟩ = Outcome.spinning w t := by
  simp [handleHTTP1Loop, readString, readHeaders_nil]

theorem pipelinedRequest_complete (n : Nat) (hn : n < 10) : (pipelinedRequest n).Complete := by
  interval_cases n <;>
  · refine ⟨⟨_, rfl, by decide⟩, ?_⟩
    intro h hh
    simp only [pipelinedRequest, List.mem_singleton] at hh
    subst hh
    exact ⟨⟨_, rfl, by decide⟩, by decide⟩

/-- C1: on every client input that holds three complete requests, whatever
they contain and whatever follows them, `handleHTTP1` runs to its end and
writes exactly three responses, in submission order: response #1, then
response #2, then response #3. -/
theorem handleHTTP1_writes_in_submission_order (r1 r2 r3 : Request) (tail : Bytes)
    (fuel : Nat) (h1 : r1.Complete) (h2 : r2.Complete) (h3 : r3.Complete)
    (hf : r1.headers.length < fuel ∧ r2.headers.length < fuel ∧ r3.headers.length < fuel) :
    ∃ c, handleHTTP1 fuel (r1.encode ++ r2.encode ++ r3.encode ++ tail) = Outcome.returned c ∧
      c.written.length = 3 ∧
      c.written.map Record.payload =
        [http1Response 0, http1Response 1, http1Response 2] ∧
      c.written.map Record.payload =
        ["HTTP/1.1 200 OK\r\nContent-Length: 20\r\n\r\nResponse #1 content!",
         "HTTP/1.1 200 OK\r\nContent-Length: 20\r\n\r\nResponse #2 content!",
         "HTTP/1.1 200 OK\r\nContent-Length: 20\r\n\r\nResponse #3 content!"] := by
  refine ⟨_, handleHTTP1_complete r1 r2 r3 tail fuel h1 h2 h3 hf, rfl, rfl, ?_⟩
  dsimp only
  decide

/-- C1, witness: the three requests that `testHTTP1Pipelining` sends. -/
theorem handleHTTP1_writes_in_submission_order_witness :
    ∃ c, handleHTTP1 2 ((pipelinedRequest 1).encode ++ (pipelinedRequest 2).encode ++
          (pipelinedRequest 3).encode ++ []) = Outcome.returned c ∧
      c.written.length = 3 ∧
      c.written.map Record.payload =
        [http1Response 0, http1Response 1, http1Response 2] ∧
      c.written.map Record.payload =
        ["HTTP/1.1 200 OK\r\nContent-Length: 20\r\n\r\nResponse #1 content!",
         "HTTP/1.1 200 OK\r\nContent-Length: 20\r\n\r\nResponse #2 content!",
         "HTTP/1.1 200 OK\r\nContent-Length: 20\r\n\r\nResponse #3 content!"] :=
  handleHTTP1_writes_in_submission_order (pipelinedRequest 1) (pipelinedRequest 2)
    (pipelinedRequest 3) [] 2
    (pipelinedRequest_complete 1 (by decide)) (pipelinedRequest_complete 2 (by decide))
    (pipelinedRequest_complete 3 (by decide)) (by decide)

/-- C3: on the logical clock, the offset at which `handleHTTP1` writes response
`i` is the sum of the waits of streams `0..i`; the offsets never decrease from
one response to the next, although streams 1 and 2 have wait 0; and the offset
of the last response, like the clock at the end, is the sum of all waits. -/
theorem handleHTTP1_offsets (r1 r2 r3 : Request) (tail : Bytes)
    (fuel : Nat) (h1 : r1.Complete) (h2 : r2.Complete) (h3 : r3.Complete)
    (hf : r1.headers.length < fuel ∧ r2.headers.length < fuel ∧ r3.headers.length < fuel) :
    ∃ c, handleHTTP1 fuel (r1.encode ++ r2.encode ++ r3.encode ++ tail) = Outcome.returned c ∧
      c.written.map Record.offset = [http1WaitUpTo 0, http1WaitUpTo 1, http1WaitUpTo 2] ∧
      (c.written.map Record.offset).Pairwise (fun a b => a ≤ b) ∧
      http1Sleep 1 = 0 ∧ http1Sleep 2 = 0 ∧
      (c.written.map Record.offset).getLast? = some ((List.range 3).map http1Sleep).sum ∧
      c.clock = ((List.range 3).map http1Sleep).sum := by
  refine ⟨_, handleHTTP1_complete r1 r2 r3 tail fuel h1 h2 h3 hf, ?_, ?_, ?_, ?_, ?_, ?_⟩
  all_goals first | decide | (dsimp only; decide)

/-- C3, witness: the three requests that `testHTTP1Pipelining` sends, followed
by more bytes. -/
theorem handleHTTP1_offsets_witness :
    ∃ c, handleHTTP1 5 ((pipelinedRequest 1).encode ++ (pipelinedRequest 2).encode ++
          (pipelinedRequest 3).encode ++ ['G', 'E', 'T']) = Outcome.returned c ∧
      c.written.map Record.offset = [http1WaitUpTo 0, http1WaitUpTo 1, http1WaitUpTo 2] ∧
      (c.written.map Record.offset).Pairwise (fun a b => a ≤ b) ∧
      http1Sleep 1 = 0 ∧ http1Sleep 2 = 0 ∧
      (c.written.map Record.offset).getLast? = some ((List.range 3).map http1Sleep).sum ∧
      c.clock = ((List.range 3).map http1Sleep).sum :=
  handleHTTP1_offsets (pipelinedRequest 1) (pipelinedRequest 2)
    (pipelinedRequest 3) ['G', 'E', 'T'] 5
    (pipelinedRequest_complete 1 (by decide)) (pipelinedRequest_complete 2 (by decide))
    (pipelinedRequest_complete 3 (by decide)) (by decide)

/-- What `ReadString` finds: a whole line, with the rest left unread, or the
end of the input before any line feed. -/
theorem readString_cases (buf : Bytes) :
    (IsLine (readString '\n' buf).1 ∧
        buf = (readString '\n' buf).1 ++ (readString '\n' buf).2) ∨
      ((readString '\n' buf).2 = [] ∧ '\n' ∉ (readString '\n' buf).1) := by
  induction buf with
  | nil => right; simp [readString]
  | cons c buf ih =>
    by_cases hc : c = '\n'
    · left
      subst hc
      simp only [readString, if_true]
      exact ⟨⟨[], rfl, by simp⟩, rfl⟩
    · simp only [readString, hc, if_false]
      rcases ih with ⟨⟨body, hb, hnb⟩, hcat⟩ | ⟨hnil, hno⟩
      · left
        refine ⟨⟨c :: body, by rw [hb]; rfl, ?_⟩, ?_⟩
        · intro hm
          rcases List.mem_cons.1 hm with h | h
          · exact hc h.symm
          · exact hnb h
        · rw [List.cons_append, ← hcat]
      · right
        refine ⟨hnil, ?_⟩
        intro hm
        rcases List.mem_cons.1 hm with h | h
        · exact hc h.symm
        · exact hno h

/-- The header loop gets out only past a blank line: what it consumed is header
lines followed by the blank line. -/
theorem readHeaders_some (fuel : Nat) :
    ∀ buf rest, readHeaders fuel buf = some rest →
      ∃ hs : List Bytes, (∀ h ∈ hs, IsLine h ∧ h ≠ blankLine) ∧
        buf = hs.flatten ++ blankLine ++ rest := by
  induction fuel with
  | zero => intro buf rest h; simp [readHeaders] at h
  | succ n ih =>
    intro buf rest h
    rw [readHeaders] at h
    by_cases hb : (readString '\n' buf).1 = blankLine
    · rw [if_pos hb] at h
      have hrest : (readString '\n' buf).2 = rest := Option.some.inj h
      rcases readString_cases buf with ⟨_, hcat⟩ | ⟨_, hno⟩
      · refine ⟨[], by simp, ?_⟩
        rw [hb, hrest] at hcat
        simpa using hcat
      · rw [hb] at hno
        exact absurd (by decide) hno
    · rw [if_neg hb] at h
      rcases readString_cases buf with ⟨hl, hcat⟩ | ⟨hnil, _⟩
      · obtain ⟨hs, hall, e⟩ := ih _ _ h
        refine ⟨(readString '\n' buf).1 :: hs, ?_, ?_⟩
        · intro x hx
          rcases List.mem_cons.1 hx with rfl | hx
          · exact ⟨hl, hb⟩
          · exact hall x hx
        · rw [e] at hcat
          simpa [List.append_assoc] using hcat
      · rw [hnil, readHeaders_nil] at h
        exact Option.noConfusion h

/-- One iteration of the loop of `handleHTTP1` that the handler gets past has
consumed a complete request. -/
theorem handleHTTP1Loop_returned (fuel k i : Nat) (c c2 : Conn)
    (h : handleHTTP1Loop fuel (k + 1) i c = Outcome.returned c2) :
    ∃ (r : Request) (rest : Bytes), r.Complete ∧ c.unread = r.encode ++ rest ∧
      handleHTTP1Loop fuel k (i + 1)
        ⟨rest, c.written ++ [⟨c.clock + http1Sleep i, http1Response i⟩],
          c.clock + http1Sleep i⟩ = Outcome.returned c2 := by
  rw [handleHTTP1Loop] at h
  cases hh : readHeaders fuel (readString '\n' c.unread).2 with
  | none => rw [hh] at h; exact Outcome.noConfusion h
  | some rest =>
    rw [hh] at h
    obtain ⟨hs, hall, e⟩ := readHeaders_some fuel _ _ hh
    rcases readString_cases c.unread with ⟨hl, hcat⟩ | ⟨hnil, _⟩
    · refine ⟨⟨(readString '\n' c.unread).1, hs⟩, rest, ⟨hl, hall⟩, ?_, h⟩
      rw [e] at hcat
      simpa [Request.encode, List.append_assoc] using hcat
    · rw [hnil, readHeaders_nil] at hh
      exact Option.noConfusion hh

/-- The handler `handleHTTP1` returns only when the client's input holds three
complete requests: on every input that ends before that, it never returns,
however many iterations are allowed. -/
theorem handleHTTP1_returned_only_if_complete (fuel : Nat) (input : Bytes) (c : Conn)
    (h : handleHTTP1 fuel input = Outcome.returned c) :
    ∃ (r1 r2 r3 : Request) (tail : Bytes), r1.Complete ∧ r2.Complete ∧ r3.Complete ∧
      input = r1.encode ++ r2.encode ++ r3.encode ++ tail := by
  obtain ⟨r1, t1, h1, e1, k1⟩ := handleHTTP1Loop_returned fuel 2 0 _ c h
  obtain ⟨r2, t2, h2, e2, k2⟩ := handleHTTP1Loop_returned fuel 1 1 _ c k1
  obtain ⟨r3, t3, h3, e3, _⟩ := handleHTTP1Loop_returned fuel 0 2 _ c k2
  refine ⟨r1, r2, r3, t3, h1, h2, h3, ?_⟩
  simp only at e1 e2 e3
  rw [e1, e2, e3]
  simp [List.append_assoc]

/-- C4, at the failing input: the client sends one complete request, then the
request line and one header of a second request, and the stream ends.  However
many iterations are allowed, `handleHTTP1` has not returned: after writing
response #1 it goes round the header loop of the second request for ever. -/
theorem handleHTTP1_spins_on_truncated_input :
    (∀ fuel c, handleHTTP1 fuel truncatedInput ≠ Outcome.returned c) ∧
    (∀ n, handleHTTP1 (n + 2) truncatedInput =
      Outcome.spinning
        [⟨3000, "HTTP/1.1 200 OK\r\nContent-Length: 20\r\n\r\nResponse #1 content!"⟩]
        3000) := by
  have big : ∀ n, handleHTTP1 (n + 2) truncatedInput =
      Outcome.spinning
        [⟨3000, "HTTP/1.1 200 OK\r\nContent-Length: 20\r\n\r\nResponse #1 content!"⟩]
        3000 := by
    intro n
    have e : truncatedInput = (pipelinedRequest 1).encode ++
        "GET /resource2 HTTP/1.1\r\nHost: localhost\r\n".toList := by decide
    have hs1 : readString '\n' "GET /resource2 HTTP/1.1\r\nHost: localhost\r\n".toList
        = ("GET /resource2 HTTP/1.1\r\n".toList, "Host: localhost\r\n".toList) := by decide
    have hs2 : readString '\n' "Host: localhost\r\n".toList
        = ("Host: localhost\r\n".toList, []) := by decide
    have hs3 : "Host: localhost\r\n".toList ≠ blankLine := by decide
    have hr0 : http1Response 0
        = "HTTP/1.1 200 OK\r\nContent-Length: 20\r\n\r\nResponse #1 content!" := by decide
    rw [handleHTTP1, e, handleHTTP1Loop_step (n + 2) 2 0 (pipelinedRequest 1) _ _ _
      (pipelinedRequest_complete 1 (by decide)) (by simp [pipelinedRequest])]
    have hh : readHeaders (n + 2) "Host: localhost\r\n".toList = none := by
      rw [readHeaders, hs2]
      simp only [hs3, if_false]
      exact readHeaders_nil _
    simp only [handleHTTP1Loop, hs1, hh, hr0, http1Sleep, if_true, List.nil_append,
      Nat.zero_add]
  refine ⟨?_, big⟩
  intro fuel c
  rcases fuel with _ | _ | n
  · have e0 : handleHTTP1 0 truncatedInput
        = Outcome.spinning [] 0 := by decide
    rw [e0]
    exact fun h => Outcome.noConfusion h
  · have e1 : handleHTTP1 1 truncatedInput
        = Outcome.spinning [] 0 := by decide
    rw [e1]
    exact fun h => Outcome.noConfusion h
  · rw [big n]
    exact fun h => Outcome.noConfusion h

/-! ## Theorems: `handleHTTP2` -/

/-- Whatever the client sends, `handleHTTP2` starts three units of work, for
the streams 0, 1 and 2, with the requests it read. -/
theorem dispatch_eq (input : Bytes) :
    ∃ a b c : Bytes, dispatch input =
      [⟨0, a, 3000, http2Response 0⟩, ⟨1, b, 100, http2Response 1⟩,
       ⟨2, c, 100, http2Response 2⟩] :=
  ⟨_, _, _, rfl⟩

/-- Each of the three units of work delivers its own response. -/
theorem delivered_eq_map (input : Bytes) (order : List Nat) (h : ∀ k ∈ order, k < 3) :
    delivered (dispatch input) order = order.map http2Response := by
  obtain ⟨a, b, c, e⟩ := dispatch_eq input
  rw [delivered, e]
  induction order with
  | nil => rfl
  | cons k order ih =>
    have hk := h k (by simp)
    have ih2 := ih (fun x hx => h x (by simp [hx]))
    rw [List.filterMap_cons, ih2]
    interval_cases k <;> rfl

/-- C5: for every client input, truncated or malformed ones included, and for
every order in which the three units of work deliver, `handleHTTP2` dispatches
exactly the streams 0, 1, 2 and writes exactly three responses, one per stream
id, each `"STREAM:<id> Response #<id+1> ready!\n"`, in the order of delivery:
a permutation of the submission order. -/
theorem handleHTTP2_one_response_per_stream (input : Bytes) (order : List Nat)
    (h : order.Perm [0, 1, 2]) :
    (dispatch input).map Work.streamID = [0, 1, 2] ∧
    handleHTTP2 input order = order.map http2Response ∧
    (handleHTTP2 input order).length = 3 ∧
    (handleHTTP2 input order).Perm
      ["STREAM:0 Response #1 ready!\n", "STREAM:1 Response #2 ready!\n",
       "STREAM:2 Response #3 ready!\n"] ∧
    (handleHTTP2 input order).count "STREAM:0 Response #1 ready!\n" = 1 ∧
    (handleHTTP2 input order).count "STREAM:1 Response #2 ready!\n" = 1 ∧
    (handleHTTP2 input order).count "STREAM:2 Response #3 ready!\n" = 1 := by
  have hlt : ∀ k ∈ order, k < 3 := by
    intro k hk
    have := (h.mem_iff).1 hk
    simp at this
    omega
  have hlen : order.length = 3 := h.length_eq
  have hw : handleHTTP2 input order = order.map http2Response := by
    rw [handleHTTP2, delivered_eq_map input order hlt]
    exact List.take_of_length_le (by simp [hlen])
  have hp : (order.map http2Response).Perm
      ["STREAM:0 Response #1 ready!\n", "STREAM:1 Response #2 ready!\n",
       "STREAM:2 Response #3 ready!\n"] := by
    have hm := h.map http2Response
    have e : [0, 1, 2].map http2Response =
        ["STREAM:0 Response #1 ready!\n", "STREAM:1 Response #2 ready!\n",
         "STREAM:2 Response #3 ready!\n"] := by decide
    rwa [e] at hm
  obtain ⟨a, b, c, e⟩ := dispatch_eq input
  refine ⟨by rw [e]; rfl, hw, by rw [hw, List.length_map, hlen], by rw [hw]; exact hp, ?_, ?_, ?_⟩
  · rw [hw, hp.count_eq]; decide
  · rw [hw, hp.count_eq]; decide
  · rw [hw, hp.count_eq]; decide

/-- C5, witness: the second request cut short, the third missing, delivery in
the order 1, 2, 0. -/
theorem handleHTTP2_one_response_per_stream_witness :
    handleHTTP2 "STREAM:0 GET /resource1\nSTREAM:1 GE".toList [1, 2, 0] =
      [1, 2, 0].map http2Response ∧
    (handleHTTP2 "STREAM:0 GET /resource1\nSTREAM:1 GE".toList [1, 2, 0]).length = 3 :=
  have h := handleHTTP2_one_response_per_stream "STREAM:0 GET /resource1\nSTREAM:1 GE".toList
    [1, 2, 0] (by decide)
  ⟨h.2.1, h.2.2.1⟩

/-! ## Theorems: the waits of the two handlers -/

/-- C6 as stated fails at stream 1: `handleHTTP1` applies no wait there, while
`handleHTTP2` waits 100 ms, and the waits of the blocking run do not total
3.2 s. -/
theorem waits_differ_at_stream_one :
    http1Sleep 1 = 0 ∧ http2Sleep 1 = 100 ∧ http1Sleep 1 ≠ http2Sleep 1 ∧
    ((List.range 3).map http1Sleep).sum ≠ 3200 := by
  decide

/-- C6, amended: for stream 0 both handlers wait 3 s; for streams 1 and 2
`handleHTTP1` applies no wait while `handleHTTP2` waits 0.1 s; the waits of the
blocking run total 3 s. -/
theorem waits_of_both_handlers (input : Bytes) :
    http1Sleep 0 = 3000 ∧ http2Sleep 0 = 3000 ∧
    http1Sleep 1 = 0 ∧ http1Sleep 2 = 0 ∧
    http2Sleep 1 = 100 ∧ http2Sleep 2 = 100 ∧
    (dispatch input).map Work.sleep = [3000, 100, 100] ∧
    ((List.range 3).map http1Sleep).sum = 3000 := by
  obtain ⟨a, b, c, e⟩ := dispatch_eq input
  refine ⟨by decide, by decide, by decide, by decide, by decide, by decide, ?_, by decide⟩
  rw [e]
  rfl

/-! ## Theorems: `SlowReader` -/

theorem wrap64_of_range {x : Int} (h1 : -(2 ^ 63) ≤ x) (h2 : x < 2 ^ 63) : wrap64 x = x := by
  unfold wrap64
  rw [Int.emod_eq_of_lt (by omega) (by omega)]
  omega

/-- With data left to send and a non-negative chunk size, `Read` returns the
smaller of the chunk size and the data left, and advances `sent` by it. -/
theorem Read_of_lt (s : SlowReader) (p : Bytes) (hr : s.InRange) (hc : 0 ≤ s.chunkSize)
    (h0 : 0 ≤ s.sent) (h1 : s.sent < s.dataSize) :
    s.Read p =
      { reader := { s with sent := s.sent + min s.chunkSize (s.dataSize - s.sent) }
        buf := fillDummy (min s.chunkSize (s.dataSize - s.sent)).toNat p
        n := min s.chunkSize (s.dataSize - s.sent)
        err := none
        slept := s.delay } := by
  obtain ⟨⟨_, hd2⟩, _, _⟩ := hr
  have hw : wrap64 (s.dataSize - s.sent) = s.dataSize - s.sent :=
    wrap64_of_range (by omega) (by omega)
  have hn : ¬ s.sent ≥ s.dataSize := by omega
  by_cases hcmp : s.chunkSize > s.dataSize - s.sent
  · have hmin : min s.chunkSize (s.dataSize - s.sent) = s.dataSize - s.sent :=
      min_eq_right (by omega)
    have hw2 : wrap64 (s.sent + (s.dataSize - s.sent)) = s.sent + (s.dataSize - s.sent) :=
      wrap64_of_range (by omega) (by omega)
    simp only [SlowReader.Read, hn, if_false, hw, hcmp, if_true, hmin, hw2]
  · have hmin : min s.chunkSize (s.dataSize - s.sent) = s.chunkSize :=
      min_eq_left (by omega)
    have hw2 : wrap64 (s.sent + s.chunkSize) = s.sent + s.chunkSize :=
      wrap64_of_range (by omega) (by omega)
    simp only [SlowReader.Read, hn, if_false, hw, hcmp, hmin, hw2]

/-- With nothing left to send, `Read` returns `(0, io.EOF)` and changes
nothing. -/
theorem Read_of_ge (s : SlowReader) (p : Bytes) (h : s.sent ≥ s.dataSize) :
    s.Read p = { reader := s, buf := p, n := 0, err := some ReadError.EOF, slept := 0 } := by
  simp only [SlowReader.Read, h, if_true]

theorem Read_err_none_of_lt (s : SlowReader) (p : Bytes) (h : ¬ s.sent ≥ s.dataSize) :
    (s.Read p).err = none := by
  simp only [SlowReader.Read, h, if_false]

/-- Ceiling division, one step: with `x` bytes left (`x ≥ 1`) the number of
reads still to come is one more than after a read. -/
theorem ceil_step (x c : Int) (hx : 1 ≤ x) (hc : 1 ≤ c) :
    ((x + c - 1) / c).toNat = ((x - min c x + c - 1) / c).toNat + 1 := by
  have hc0 : c ≠ 0 := by omega
  have h1 : (x + c - 1) / c = (x - 1) / c + 1 := by
    have : x + c - 1 = (x - 1) + 1 * c := by ring
    rw [this, Int.add_mul_ediv_right _ _ hc0]
  have hnn : 0 ≤ (x - 1) / c := Int.ediv_nonneg (by omega) (by omega)
  by_cases hcx : c ≤ x
  · have h2 : x - min c x + c - 1 = x - 1 := by rw [min_eq_left hcx]; ring
    rw [h1, h2]
    omega
  · have hxc : x ≤ c := by omega
    have h2 : x - min c x + c - 1 = c - 1 := by rw [min_eq_right hxc]; ring
    have h3 : (c - 1) / c = 0 := Int.ediv_eq_zero_of_lt (by omega) (by omega)
    have h4 : (x - 1) / c = 0 := Int.ediv_eq_zero_of_lt (by omega) (by omega)
    rw [h1, h2, h3, h4]
    rfl

theorem ceil_zero (x c : Int) (hx : x ≤ 0) (hx0 : 0 ≤ x) (hc : 1 ≤ c) :
    ((x + c - 1) / c).toNat = 0 := by
  have hx1 : x = 0 := by omega
  subst hx1
  have h3 : (0 + c - 1) / c = 0 := Int.ediv_eq_zero_of_lt (by omega) (by omega)
  rw [h3]
  rfl

/-- Successive reads from any state that respects `0 ≤ sent ≤ dataSize`: the
first `⌈(dataSize - sent) / chunkSize⌉` reads succeed and deliver what is left,
every later read is `(0, io.EOF)`. -/
theorem readMany_spec (bufs : List Bytes) :
    ∀ s : SlowReader, s.InRange → 1 ≤ s.chunkSize → 0 ≤ s.sent → s.sent ≤ s.dataSize →
      (∀ r ∈ (readMany s bufs).take ((s.dataSize - s.sent + s.chunkSize - 1) / s.chunkSize).toNat,
          r.err = none ∧ 1 ≤ r.n) ∧
      (((s.dataSize - s.sent + s.chunkSize - 1) / s.chunkSize).toNat ≤ bufs.length →
        (((readMany s bufs).take
            ((s.dataSize - s.sent + s.chunkSize - 1) / s.chunkSize).toNat).map ReadResult.n).sum
          = s.dataSize - s.sent) ∧
      (∀ r ∈ (readMany s bufs).drop ((s.dataSize - s.sent + s.chunkSize - 1) / s.chunkSize).toNat,
          r.n = 0 ∧ r.err = some ReadError.EOF) := by
  induction bufs with
  | nil =>
    intro s _ hc h0 h1
    refine ⟨by simp [readMany], ?_, by simp [readMany]⟩
    intro hk
    by_cases hx : 1 ≤ s.dataSize - s.sent
    · rw [ceil_step _ _ hx hc] at hk
      simp at hk
    · simp only [readMany, List.take_nil, List.map_nil, List.sum_nil]
      omega
  | cons p bufs ih =>
    intro s hr hc h0 h1
    by_cases hx : 1 ≤ s.dataSize - s.sent
    · -- a successful read
      have hlt : s.sent < s.dataSize := by omega
      have hR := Read_of_lt s p hr (by omega) h0 hlt
      have hn1 : 1 ≤ min s.chunkSize (s.dataSize - s.sent) := le_min hc hx
      have hn2 : min s.chunkSize (s.dataSize - s.sent) ≤ s.dataSize - s.sent := min_le_right _ _
      obtain ⟨hd, hs, hcr⟩ := hr
      have hr2 : (s.Read p).reader.InRange := by
        rw [hR]
        exact ⟨hd, ⟨by show -(2 ^ 63) ≤ s.sent + _; omega, by show s.sent + _ < 2 ^ 63; omega⟩,
          hcr⟩
      have hc2 : 1 ≤ (s.Read p).reader.chunkSize := by rw [hR]; exact hc
      have h02 : 0 ≤ (s.Read p).reader.sent := by
        rw [hR]; show 0 ≤ s.sent + _; omega
      have h12 : (s.Read p).reader.sent ≤ (s.Read p).reader.dataSize := by
        rw [hR]; show s.sent + _ ≤ s.dataSize; omega
      have ih2 := ih (s.Read p).reader hr2 hc2 h02 h12
      have hk2 : (s.Read p).reader.dataSize - (s.Read p).reader.sent + (s.Read p).reader.chunkSize - 1
          = s.dataSize - s.sent - min s.chunkSize (s.dataSize - s.sent) + s.chunkSize - 1 := by
        rw [hR]; show s.dataSize - (s.sent + _) + s.chunkSize - 1 = _; ring
      have hcs : (s.Read p).reader.chunkSize = s.chunkSize := by rw [hR]
      rw [hk2, hcs] at ih2
      obtain ⟨ihA, ihB, ihC⟩ := ih2
      rw [ceil_step _ _ hx hc]
      have hn : (s.Read p).n = min s.chunkSize (s.dataSize - s.sent) := by rw [hR]
      have he : (s.Read p).err = none := by rw [hR]
      refine ⟨?_, ?_, ?_⟩
      · intro r hrm
        simp only [readMany, List.take_succ_cons, List.mem_cons] at hrm
        rcases hrm with rfl | hrm
        · exact ⟨he, by rw [hn]; exact hn1⟩
        · exact ihA r hrm
      · intro hk
        simp only [List.length_cons, Nat.add_le_add_iff_right] at hk
        have hrem : (s.Read p).reader.dataSize - (s.Read p).reader.sent
            = s.dataSize - (s.sent + min s.chunkSize (s.dataSize - s.sent)) := by rw [hR]
        simp only [readMany, List.take_succ_cons, List.map_cons, List.sum_cons, ihB hk, hn, hrem]
        omega
      · intro r hrm
        simp only [readMany, List.drop_succ_cons] at hrm
        exact ihC r hrm
    · -- nothing left: every read is an end of file
      have hge : s.sent ≥ s.dataSize := by omega
      have hR := Read_of_ge s p hge
      have hk0 := ceil_zero (s.dataSize - s.sent) s.chunkSize (by omega) (by omega) hc
      have hrd : (s.Read p).reader = s := by rw [hR]
      have ih2 := ih s hr hc h0 h1
      rw [hk0] at ih2 ⊢
      obtain ⟨_, _, ihC⟩ := ih2
      refine ⟨by simp, ?_, ?_⟩
      · intro _
        simp only [List.take_zero, List.map_nil, List.sum_nil]
        omega
      · intro r hrm
        simp only [readMany, List.drop_zero, List.mem_cons, hrd] at hrm
        rcases hrm with rfl | hrm
        · rw [hR]; exact ⟨rfl, rfl⟩
        · exact ihC r (by simpa using hrm)

/-- When the buffer has room for `k` bytes, the fill loop makes the first `k`
bytes the dummy byte. -/
theorem fillDummy_take (k : Nat) (p : Bytes) (h : k ≤ p.length) :
    (fillDummy k p).take k = List.replicate k 'A' := by
  induction k generalizing p with
  | zero => simp
  | succ k ih =>
    cases p with
    | nil => simp at h
    | cons c p =>
      simp only [List.length_cons, Nat.add_le_add_iff_right] at h
      simp [fillDummy, List.replicate_succ, ih p h]

/-- C7, at the failing inputs: `Read` returns `toSend`, not the number of bytes
it put into `p`.  A reader with `chunkSize = 10` given a 4-byte buffer fills the
4 bytes and returns `(10, nil)`; the reader built by `slowPostHTTP1` given an
empty buffer returns `(1, nil)`.  In both the count exceeds `len(p)`. -/
theorem Read_count_exceeds_buffer :
    (SlowReader.Read ⟨100, 0, 10, 0⟩ ['x', 'y', 'z', 'w']).n = 10 ∧
    (SlowReader.Read ⟨100, 0, 10, 0⟩ ['x', 'y', 'z', 'w']).err = none ∧
    (SlowReader.Read ⟨100, 0, 10, 0⟩ ['x', 'y', 'z', 'w']).buf = ['A', 'A', 'A', 'A'] ∧
    ¬ (SlowReader.Read ⟨100, 0, 10, 0⟩ ['x', 'y', 'z', 'w']).n
        ≤ ((['x', 'y', 'z', 'w'] : Bytes).length : Int) ∧
    (slowPostReader.Read []).n = 1 ∧
    (slowPostReader.Read []).err = none ∧
    ¬ (slowPostReader.Read []).n ≤ (([] : Bytes).length : Int) := by
  decide

/-- C8: starting from `sent = 0` with `dataSize ≥ 0` and `chunkSize ≥ 1`,
successive calls of `Read` (whatever buffers they are given) succeed exactly
`⌈dataSize / chunkSize⌉` times, each with a nil error and a positive count, the
counts add up to `dataSize`, and every later call returns `(0, io.EOF)`. -/
theorem readMany_delivers_dataSize (dataSize chunkSize delay : Int) (bufs : List Bytes)
    (hd0 : 0 ≤ dataSize) (hd : dataSize < 2 ^ 63)
    (hc1 : 1 ≤ chunkSize) (hc : chunkSize < 2 ^ 63) :
    (∀ r ∈ (readMany ⟨dataSize, 0, chunkSize, delay⟩ bufs).take
          ((dataSize + chunkSize - 1) / chunkSize).toNat, r.err = none ∧ 1 ≤ r.n) ∧
    (((dataSize + chunkSize - 1) / chunkSize).toNat ≤ bufs.length →
      (((readMany ⟨dataSize, 0, chunkSize, delay⟩ bufs).take
          ((dataSize + chunkSize - 1) / chunkSize).toNat).map ReadResult.n).sum = dataSize) ∧
    (∀ r ∈ (readMany ⟨dataSize, 0, chunkSize, delay⟩ bufs).drop
          ((dataSize + chunkSize - 1) / chunkSize).toNat,
        r.n = 0 ∧ r.err = some ReadError.EOF) := by
  have hr : SlowReader.InRange ⟨dataSize, 0, chunkSize, delay⟩ := by
    refine ⟨⟨?_, hd⟩, ⟨?_, ?_⟩, ⟨?_, hc⟩⟩
    · show -(2 ^ 63) ≤ dataSize; omega
    · show -(2 ^ 63) ≤ (0 : Int); omega
    · show (0 : Int) < 2 ^ 63; omega
    · show -(2 ^ 63) ≤ chunkSize; omega
  have h := readMany_spec bufs ⟨dataSize, 0, chunkSize, delay⟩ hr hc1 (le_refl 0) hd0
  simpa using h

/-- C8, witness: ten bytes in chunks of four take three reads (4, 4, 2), and
the two reads after them return `(0, io.EOF)`. -/
theorem readMany_delivers_dataSize_witness :
    ((0 : Int) ≤ 10 ∧ (1 : Int) ≤ 4) ∧
    (((readMany ⟨10, 0, 4, 5⟩ [[], ['x'], [], [], []]).take
          ((10 + 4 - 1) / 4 : Int).toNat).map ReadResult.n).sum = 10 :=
  ⟨by decide,
    (readMany_delivers_dataSize 10 4 5 [[], ['x'], [], [], []]
      (by decide) (by decide) (by decide) (by decide)).2.1 (by decide)⟩

/-- C9: with `chunkSize ≥ 0` and `0 ≤ sent < dataSize`, `Read` returns
`n = min chunkSize (dataSize - sent)` with a nil error, adds exactly `n` to
`sent`, leaves `dataSize`, `chunkSize` and `delay` as they were and keeps
`0 ≤ sent ≤ dataSize`; and `Read` returns `(0, io.EOF)` with reader and buffer
unchanged if and only if `sent ≥ dataSize`. -/
theorem Read_chunk_and_eof (s : SlowReader) (p : Bytes) :
    (s.InRange → 0 ≤ s.chunkSize → 0 ≤ s.sent → s.sent < s.dataSize →
      (s.Read p).n = min s.chunkSize (s.dataSize - s.sent) ∧
      (s.Read p).err = none ∧
      (s.Read p).reader.sent = s.sent + (s.Read p).n ∧
      (s.Read p).reader.dataSize = s.dataSize ∧
      (s.Read p).reader.chunkSize = s.chunkSize ∧
      (s.Read p).reader.delay = s.delay ∧
      0 ≤ (s.Read p).reader.sent ∧
      (s.Read p).reader.sent ≤ (s.Read p).reader.dataSize) ∧
    (((s.Read p).n = 0 ∧ (s.Read p).err = some ReadError.EOF ∧
        (s.Read p).reader = s ∧ (s.Read p).buf = p) ↔ s.sent ≥ s.dataSize) := by
  constructor
  · intro hr hc h0 h1
    have hR := Read_of_lt s p hr hc h0 h1
    have hn2 : min s.chunkSize (s.dataSize - s.sent) ≤ s.dataSize - s.sent := min_le_right _ _
    have hn1 : 0 ≤ min s.chunkSize (s.dataSize - s.sent) := le_min hc (by omega)
    rw [hR]
    refine ⟨rfl, rfl, rfl, rfl, rfl, rfl, ?_, ?_⟩
    · show 0 ≤ s.sent + _; omega
    · show s.sent + _ ≤ s.dataSize; omega
  · constructor
    · rintro ⟨_, he, _, _⟩
      by_contra hlt
      rw [Read_err_none_of_lt s p hlt] at he
      exact Option.noConfusion he
    · intro hge
      rw [Read_of_ge s p hge]
      exact ⟨rfl, rfl, rfl, rfl⟩

/-- C9, witness: 7 of 10 bytes sent, chunks of 4: `Read` returns 3 and `sent`
becomes 10. -/
theorem Read_chunk_and_eof_witness :
    ((0 : Int) ≤ 4 ∧ (0 : Int) ≤ 7 ∧ (7 : Int) < 10) ∧
    (SlowReader.Read ⟨10, 7, 4, 5⟩ ['x']).n = min 4 (10 - 7) ∧
    (SlowReader.Read ⟨10, 7, 4, 5⟩ ['x']).reader.sent
      = 7 + (SlowReader.Read ⟨10, 7, 4, 5⟩ ['x']).n :=
  have h := (Read_chunk_and_eof ⟨10, 7, 4, 5⟩ ['x']).1
    (by unfold SlowReader.InRange; decide) (by decide) (by decide) (by decide)
  ⟨by decide, h.1, h.2.2.1⟩

end Httpitis
